import Mathlib

/-!
# Verification of the XLSX-to-database migration pipeline

A shallow embedding, in Lean 4, of the core of the `mirakl-cat-mkt`
migration tool (TypeScript): the XLSX row parser (`xlsx-parser.ts`),
the two coexisting `DataTransformer` variants
(`src/processing/data-transformer.ts`, which combines
`bypassTransformation` with code-based deduplication, and the streaming
variant that adds the 100 000-row threshold, `cachedSheetData` and
`streamRecordsFromCache`), the batch loader (`src/database/migration.ts`)
and the Google Sheets download path (`src/google/sheets.ts`).

JavaScript strings are modelled as Lean `String`s (`substring`/`slice`
become `jsSlice`, `trim` becomes `jsTrim`, `toLowerCase` becomes
`jsToLower`); dynamic JavaScript values are modelled by the
`JSValue` type together with JS truthiness and `String(·)` conversion;
database effects are modelled by an explicit query list and a store
semantics. Theorems at the end settle the specification claims.
-/

namespace Mirakl

/-- The 11-field canonical migrated unit (`RuleRecord` in
`database/schema.ts`). The three Mirakl category columns keep their
meaning; their hyphenated names are camel-cased for Lean. -/
structure RuleRecord where
  code : String
  description : String
  label : String
  requirement_level : String
  roles : String
  type : String
  validations : String
  variant : String
  codigoCategoriaMirakl : String
  nomeCategoriaMirakl : String
  parentCodeCategoriaMirakl : String
deriving DecidableEq, Repr

/-- A blank rule record: every field the empty string. -/
def emptyRecord : RuleRecord :=
  { code := "", description := "", label := "", requirement_level := ""
    roles := "", type := "", validations := "", variant := ""
    codigoCategoriaMirakl := "", nomeCategoriaMirakl := ""
    parentCodeCategoriaMirakl := "" }

/-- Dynamic JavaScript cell values as they reach the parser and the
defensive extractors: `null`, `undefined`, strings, (integer) numbers
and booleans. -/
inductive JSValue where
  | vNull
  | vUndef
  | vStr (s : String)
  | vNum (n : Int)
  | vBool (b : Bool)
deriving DecidableEq, Repr

/-- JavaScript truthiness of a `JSValue` (`''`, `0`, `false`, `null`
and `undefined` are falsy). -/
def jsTruthy : JSValue → Bool
  | .vNull => false
  | .vUndef => false
  | .vStr s => s ≠ ""
  | .vNum n => n ≠ 0
  | .vBool b => b

/-- JavaScript `String(v)` conversion. -/
def jsToString : JSValue → String
  | .vNull => "null"
  | .vUndef => "undefined"
  | .vStr s => s
  | .vNum n => toString n
  | .vBool b => if b then "true" else "false"

/-- A JavaScript object, as a key/value association list (used for the
defensive property access in `getSafeValue`). -/
abbrev JSRecord : Type := List (String × JSValue)

/-- The whitespace characters JavaScript's `trim` removes, as the
pipeline's data exercises them. -/
def isJsWhitespace (c : Char) : Bool :=
  c = ' ' || c = '\t' || c = '\n' || c = '\r'

/-- JavaScript `String.prototype.trim`, computed on the character
list. -/
def jsTrim (s : String) : String :=
  String.mk (((s.data.dropWhile isJsWhitespace).reverse.dropWhile
    isJsWhitespace).reverse)

/-- ASCII lower-casing of one character (what `toLowerCase` does on the
`code` values this pipeline compares). -/
def lowerChar (c : Char) : Char :=
  if 'A' ≤ c && c ≤ 'Z' then Char.ofNat (c.toNat + 32) else c

/-- JavaScript `String.prototype.toLowerCase`. -/
def jsToLower (s : String) : String := String.mk (s.data.map lowerChar)

/-- JavaScript `substring(0, n)` / `slice(0, n)`, computed on the
character list. -/
def jsSlice (s : String) (n : Nat) : String := String.mk (s.data.take n)

/-- The 11 canonical column names, `RULE_TABLE_COLUMNS` in
`database/schema.ts`. -/
def RULE_TABLE_COLUMNS : List String :=
  ["code", "description", "label", "requirement_level", "roles", "type",
   "validations", "variant", "codigo-categoria-mirakl",
   "nome-categoria-mirakl", "parent_code-categoria-mirakl"]

/-! ## XLSX parser (`xlsx-parser.ts`) -/

/-- One cell of `processRow`'s field extraction:
`record[dbColumn] = cellValue ? String(cellValue).trim() : ''` for the
mapped index, `''` when the column is unmapped or the row is too short
(an out-of-range read yields `undefined`, which is falsy, so both
branches agree on `''`). -/
def extractField (mapping : List (String × Nat)) (row : List JSValue)
    (col : String) : String :=
  match mapping.lookup col with
  | none => ""
  | some idx =>
      let cv := row.getD idx JSValue.vUndef
      if jsTruthy cv then jsTrim (jsToString cv) else ""

/-- `processRow`'s empty-row test:
`row.every(cell => !cell || String(cell).trim() === '')`. -/
def rowIsEmpty (row : List JSValue) : Bool :=
  row.all fun cell => !jsTruthy cell || jsTrim (jsToString cell) == ""

/-- `XLSXParser.processRow`: skip an all-blank row (`ok none`), build the
11-field record through `extractField`, and reject a record whose `code`
is blank with the error `processSheet` turns into an Error Entry. -/
def processRow (row : List JSValue) (mapping : List (String × Nat)) :
    Except String (Option RuleRecord) :=
  if rowIsEmpty row then .ok none
  else
    let r : RuleRecord :=
      { code := extractField mapping row "code"
        description := extractField mapping row "description"
        label := extractField mapping row "label"
        requirement_level := extractField mapping row "requirement_level"
        roles := extractField mapping row "roles"
        type := extractField mapping row "type"
        validations := extractField mapping row "validations"
        variant := extractField mapping row "variant"
        codigoCategoriaMirakl := extractField mapping row "codigo-categoria-mirakl"
        nomeCategoriaMirakl := extractField mapping row "nome-categoria-mirakl"
        parentCodeCategoriaMirakl :=
          extractField mapping row "parent_code-categoria-mirakl" }
    if r.code = "" ∨ jsTrim r.code = "" then
      .error "Missing required field 'code'"
    else .ok (some r)

/-! ## Direct transformer (`src/processing/data-transformer.ts`) -/

/-- Structure mirroring `TransformationResult`. -/
structure TransformationResult where
  records : List RuleRecord
  totalProcessed : Nat
  validRecords : Nat
  skippedRecords : Nat
  errors : List String
deriving DecidableEq, Repr

/-- `bypassTransformation`'s per-row code:
``record?.code || record?.Code || `row_${i}` `` — a parsed `RuleRecord`
has no `Code` property, so an empty `code` falls through to the
positional placeholder. -/
def bypassRowCode (r : RuleRecord) (i : Nat) : String :=
  if r.code ≠ "" then r.code else "row_" ++ toString i

/-- One iteration of `bypassTransformation`'s loop body: push a record
(with the per-field `substring` caps) when the code is truthy and trims
non-blank, otherwise push nothing. -/
def bypassRow (r : RuleRecord) (i : Nat) : Option RuleRecord :=
  let code := bypassRowCode r i
  if code ≠ "" ∧ jsTrim code ≠ "" then
    some { code := jsSlice code 100
           description := jsSlice r.description 500
           label := jsSlice r.label 200
           requirement_level := jsSlice r.requirement_level 50
           roles := jsSlice r.roles 200
           type := jsSlice r.type 50
           validations := jsSlice r.validations 500
           variant := jsSlice r.variant 100
           codigoCategoriaMirakl := jsSlice r.codigoCategoriaMirakl 100
           nomeCategoriaMirakl := jsSlice r.nomeCategoriaMirakl 200
           parentCodeCategoriaMirakl := jsSlice r.parentCodeCategoriaMirakl 100 }
  else none

/-- `DataTransformer.bypassTransformation` of
`src/processing/data-transformer.ts`: the loop
`for (i = 0; i < sheet.data.length && i < 1000; i++)` visits only the
first 1000 rows; no error is ever pushed and the error collector is
never called. -/
def bypassTransformation (data : List RuleRecord) : TransformationResult :=
  let records := (data.take 1000).enum.filterMap fun p => bypassRow p.2 p.1
  { records := records
    totalProcessed := data.length
    validRecords := records.length
    skippedRecords := data.length - records.length
    errors := [] }

/-- The deduplication key `record.code.toLowerCase().trim()`. -/
def dedupKey (r : RuleRecord) : String := jsTrim (jsToLower r.code)

/-- Loop of `deduplicateRecords`: keep a record whose key has not been
seen, skip it otherwise (the `Set` is modelled by the list of seen
keys). -/
def dedupGo (seen : List String) : List RuleRecord → List RuleRecord
  | [] => []
  | r :: rs =>
      if dedupKey r ∈ seen then dedupGo seen rs
      else r :: dedupGo (dedupKey r :: seen) rs

/-- `DataTransformer.deduplicateRecords`. -/
def deduplicateRecords (records : List RuleRecord) : List RuleRecord :=
  dedupGo [] records

/-- The concatenated per-sheet output of `bypassTransformation`
(`allRecords` in `transformSheetsData` before deduplication). -/
def allBypassRecords (sheets : List (List RuleRecord)) : List RuleRecord :=
  (sheets.map fun d => (bypassTransformation d).records).flatten

/-- `DataTransformer.transformSheetsData` of
`src/processing/data-transformer.ts`: per-sheet `bypassTransformation`
(which never throws, so the catch and its collector call are dead code),
then `deduplicateRecords` over the concatenation. -/
def transformSheetsData (sheets : List (List RuleRecord)) :
    TransformationResult :=
  let per := sheets.map fun d => bypassTransformation d
  let allRecords := allBypassRecords sheets
  let deduplicated := deduplicateRecords allRecords
  { records := deduplicated
    totalProcessed := (per.map (·.totalProcessed)).sum
    validRecords := deduplicated.length
    skippedRecords := (per.map (·.skippedRecords)).sum
      + (allRecords.length - deduplicated.length)
    errors := (per.map (·.errors)).flatten }

/-! ## Streaming transformer variant (`DataTransformer` with
`cachedSheetData`, the file cited as `part_007`) -/

/-- `getSafeValue(record, keys, fallback)`: return `String(record[key])`
for the first key whose property is neither `undefined` nor `null`
(an absent property reads as `undefined`), else the fallback. -/
def getSafeValue (record : JSRecord) (keys : List String)
    (fallback : String) : String :=
  match keys with
  | [] => fallback
  | k :: ks =>
      match List.lookup k record with
      | some v =>
          if v ≠ JSValue.vNull ∧ v ≠ JSValue.vUndef then jsToString v
          else getSafeValue record ks fallback
      | none => getSafeValue record ks fallback

/-- The `auto_row_<n>` placeholder passed to `getSafeValue` as the
fallback for `code` (`n = index + 1`). -/
def autoRowPlaceholder (index : Nat) : String :=
  "auto_row_" ++ toString (index + 1)

/-- `DataTransformer.createMinimalRecord`: defensive extraction of the
11 fields with `slice(0, cap)` truncation; its `try/catch` wraps pure
property reads and can never take the `error_row_` branch. -/
def createMinimalRecord (sourceRecord : JSRecord) (index : Nat) :
    RuleRecord :=
  { code := jsSlice (getSafeValue sourceRecord ["code", "Code"]
      (autoRowPlaceholder index)) 100
    description := jsSlice (getSafeValue sourceRecord ["description", "Description"] "") 500
    label := jsSlice (getSafeValue sourceRecord ["label", "Label"] "") 200
    requirement_level := jsSlice (getSafeValue sourceRecord ["requirement_level"] "") 50
    roles := jsSlice (getSafeValue sourceRecord ["roles", "Roles"] "") 200
    type := jsSlice (getSafeValue sourceRecord ["type", "Type"] "") 50
    validations := jsSlice (getSafeValue sourceRecord ["validations", "Validations"] "") 500
    variant := jsSlice (getSafeValue sourceRecord ["variant", "Variant"] "") 100
    codigoCategoriaMirakl :=
      jsSlice (getSafeValue sourceRecord ["codigo-categoria-mirakl"] "") 100
    nomeCategoriaMirakl :=
      jsSlice (getSafeValue sourceRecord ["nome-categoria-mirakl"] "") 200
    parentCodeCategoriaMirakl :=
      jsSlice (getSafeValue sourceRecord ["parent_code-categoria-mirakl"] "") 100 }

/-- View of a parsed `RuleRecord` as the JavaScript object
`createMinimalRecord` receives: all 11 properties present, as strings. -/
def toJSRecord (r : RuleRecord) : JSRecord :=
  [("code", JSValue.vStr r.code),
   ("description", JSValue.vStr r.description),
   ("label", JSValue.vStr r.label),
   ("requirement_level", JSValue.vStr r.requirement_level),
   ("roles", JSValue.vStr r.roles),
   ("type", JSValue.vStr r.type),
   ("validations", JSValue.vStr r.validations),
   ("variant", JSValue.vStr r.variant),
   ("codigo-categoria-mirakl", JSValue.vStr r.codigoCategoriaMirakl),
   ("nome-categoria-mirakl", JSValue.vStr r.nomeCategoriaMirakl),
   ("parent_code-categoria-mirakl", JSValue.vStr r.parentCodeCategoriaMirakl)]

/-- The per-row builder shared by the streaming variant's paths:
`createMinimalRecord(sheet.data[i], i)`. -/
def minimalOfRow (r : RuleRecord) (i : Nat) : RuleRecord :=
  createMinimalRecord (toJSRecord r) i

/-- The records produced from one sheet by the streaming variant
(`streamingTransformation`'s micro-batch loop visits every index `j`
in order, so the batching is only an iteration pattern). -/
def sheetMinimalRecords (data : List RuleRecord) : List RuleRecord :=
  data.enum.map fun p => minimalOfRow p.2 p.1

/-- `streamingTransformation` (streaming variant): every row becomes a
record, no row is skipped, no error is produced (the body is pure, so
the catch returning partial results is dead code). -/
def streamingTransformation (data : List RuleRecord) : TransformationResult :=
  { records := sheetMinimalRecords data
    totalProcessed := data.length
    validRecords := (sheetMinimalRecords data).length
    skippedRecords := 0
    errors := [] }

/-- The large-dataset threshold of the streaming variant's
`transformSheetsData` (`if (totalRows > 100000)`). -/
def LARGE_THRESHOLD : Nat := 100000

/-- Total data rows across a table's parsed sheets
(`parsedSheets.reduce((sum, sheet) => sum + sheet.data.length, 0)`). -/
def totalRowsOf (sheets : List (List RuleRecord)) : Nat :=
  (sheets.map List.length).sum

/-- Result of the streaming variant's `transformSheetsData` together
with the `cachedSheetData` field it leaves behind. -/
structure StreamingTransformOutcome where
  res : TransformationResult
  cachedSheetData : List (List RuleRecord)
deriving DecidableEq, Repr

/-- The records the direct (small-dataset) branch materializes: the
concatenation of `streamingTransformation` over the sheets, with no
deduplication (`NO DEDUPLICATION - Literal 1:1 migration`). -/
def directRecordsOf (sheets : List (List RuleRecord)) : List RuleRecord :=
  (sheets.map fun d => (streamingTransformation d).records).flatten

/-- The streaming variant's `transformSheetsData`: compute `totalRows`
once, before any row processing; above the threshold cache the sheets
and return no records (they will be streamed), otherwise materialize
every record of every sheet. -/
def streamingVariantTransformSheetsData (sheets : List (List RuleRecord)) :
    StreamingTransformOutcome :=
  let totalRows := totalRowsOf sheets
  if totalRows > LARGE_THRESHOLD then
    { res := { records := []
               totalProcessed := totalRows
               validRecords := totalRows
               skippedRecords := 0
               errors := [] }
      cachedSheetData := sheets }
  else
    let per := sheets.map fun d => streamingTransformation d
    { res := { records := directRecordsOf sheets
               totalProcessed := (per.map (·.totalProcessed)).sum
               validRecords := (directRecordsOf sheets).length
               skippedRecords := (per.map (·.skippedRecords)).sum
               errors := (per.map (·.errors)).flatten }
      cachedSheetData := [] }

/-- The batch accumulator of `streamRecordsFromCache` for one sheet:
push each record, `yield batch.splice(0, batchSize)` once the batch
reaches `batchSize`, and yield the remainder after the last row. -/
def streamLoop (B : Nat) (batch : List RuleRecord) :
    List RuleRecord → List (List RuleRecord)
  | [] => if batch.isEmpty then [] else [batch]
  | r :: rs =>
      let b := batch ++ [r]
      if B ≤ b.length then b.take B :: streamLoop B (b.drop B) rs
      else streamLoop B b rs

/-- `DataTransformer.streamRecordsFromCache(batchSize)`: the generator's
yields, in order. The batch accumulator is declared per sheet, so no
partial batch survives a sheet boundary; `createMinimalRecord` is total,
so the catch that skips a problematic record is dead code. -/
def streamRecordsFromCache (cached : List (List RuleRecord)) (B : Nat) :
    List (List RuleRecord) :=
  (cached.map fun data => streamLoop B [] (sheetMinimalRecords data)).flatten

/-! ## Record validation (`validateTransformedRecords`) -/

/-- The accepted `requirement_level` literals of `validateRecord`. -/
def REQUIREMENT_LEVELS : List String := ["REQUIRED", "OPTIONAL", "RECOMMENDED"]

/-- `DataTransformer.validateRecord`: the list of validation error
messages, in source order. String lengths model JavaScript's
`.length`. -/
def validateRecord (r : RuleRecord) : List String :=
  (if r.code = "" ∨ jsTrim r.code = "" then ["Missing required field: code"] else [])
  ++ (if r.code ≠ "" ∧ 255 < r.code.length then
        ["Code field too long (max 255 characters)"] else [])
  ++ (if r.description ≠ "" ∧ 2000 < r.description.length then
        ["Description field too long (max 2000 characters)"] else [])
  ++ (if r.requirement_level ≠ "" ∧ r.requirement_level ∉ REQUIREMENT_LEVELS then
        ["Invalid requirement_level: " ++ r.requirement_level] else [])

/-- Outcome of `validateTransformedRecords`; `collectorEntries` counts
the `errorCollector.addError` calls (one per invalid record). -/
structure ValidationOutcome where
  validRecords : List RuleRecord
  invalidRecords : Nat
  errors : List String
  collectorEntries : Nat
deriving DecidableEq, Repr

/-- The error message pushed for an invalid record
(`Record ${i+1} (${code}): ${errors.join(', ')}`). -/
def validationMessage (i : Nat) (r : RuleRecord) (es : List String) : String :=
  "Record " ++ toString (i + 1) ++ " (" ++ r.code ++ "): "
    ++ String.intercalate ", " es

/-- Loop of `validateTransformedRecords` starting at record index `i`. -/
def validateLoop (i : Nat) : List RuleRecord → ValidationOutcome
  | [] => { validRecords := [], invalidRecords := 0, errors := []
            collectorEntries := 0 }
  | r :: rs =>
      let es := validateRecord r
      let rest := validateLoop (i + 1) rs
      if es = [] then
        { validRecords := r :: rest.validRecords
          invalidRecords := rest.invalidRecords
          errors := rest.errors
          collectorEntries := rest.collectorEntries }
      else
        { validRecords := rest.validRecords
          invalidRecords := rest.invalidRecords + 1
          errors := validationMessage i r es :: rest.errors
          collectorEntries := rest.collectorEntries + 1 }

/-- `DataTransformer.validateTransformedRecords`. -/
def validateTransformedRecords (records : List RuleRecord) :
    ValidationOutcome :=
  validateLoop 0 records

/-! ## Batch loader (`src/database/migration.ts`) -/

/-- The `MigrationOptions` record; `batchSize = none` models an absent
option. -/
structure MigrationOptions where
  dryRun : Bool := false
  batchSize : Option Nat := none
  skipExisting : Bool := false
  truncateTable : Bool := false
deriving DecidableEq, Repr

/-- `appConfig.migration.batchSize`:
`parseInt(process.env.BATCH_SIZE || '1000')`, with the default
environment. -/
def appConfigBatchSize : Nat := 1000

/-- `options.batchSize || appConfig.migration.batchSize` — JavaScript
`||`, so an absent option *and* an explicit `0` both fall back to the
configured default. -/
def effectiveBatchSize (o : MigrationOptions) : Nat :=
  match o.batchSize with
  | none => appConfigBatchSize
  | some n => if n = 0 then appConfigBatchSize else n

/-- The successive batches `records.slice(i, i + batchSize)` for
`i = 0, B, 2B, ...` (the batching loop of `insertRecords`). The `B = 0`
guard marks the degenerate case in which the JavaScript loop would not
terminate; `effectiveBatchSize` never produces it. -/
def chunkListFuel (B : Nat) : Nat → List α → List (List α)
  | _, [] => []
  | 0, _ :: _ => []
  | fuel + 1, x :: xs =>
      if B = 0 then []
      else (x :: xs).take B :: chunkListFuel B fuel ((x :: xs).drop B)

/-- `chunkList B l` with fuel `l.length`; the fuel only makes the
recursion structural and is never exhausted (see `chunkList_cons`). -/
def chunkList (B : Nat) (l : List α) : List (List α) :=
  chunkListFuel B l.length l

/-- Result of one `insertBatch` call. -/
structure BatchOutcome where
  inserted : Nat
  skipped : Nat
  errors : List String
deriving DecidableEq, Repr

/-- `DatabaseMigration.insertBatch`: the single multi-row `INSERT`
either succeeds (every row returns an `id`, so `rowCount` is the batch
length) or its error is caught and the whole batch is reported skipped
with one error message. The function itself never throws. `ok` is the
database oracle: whether the batch's statement succeeds. -/
def insertBatch (ok : Bool) (batch : List RuleRecord) : BatchOutcome :=
  if ok then { inserted := batch.length, skipped := 0, errors := [] }
  else { inserted := 0, skipped := batch.length
         errors := ["batch insert failed"] }

/-- Outcome of `insertRecords`: the migration counters, the error list
of the returned result, the Error Entries added to the shared
`ErrorCollector` by this call, and the batches for which an `INSERT`
statement was issued, in order. -/
structure InsertOutcome where
  recordsInserted : Nat
  recordsSkipped : Nat
  errors : List String
  collectorEntries : List String
  batchesIssued : List (List RuleRecord)
deriving DecidableEq, Repr

/-- The batch loop of `insertRecords`: each batch is submitted once;
since `insertBatch` catches its own failure, the surrounding `catch`
(the only place that would call `errorCollector.addError`) never runs,
so no collector entry is added. `ok` decides each batch statement's
fate. -/
def insertRecordsLoop (ok : List RuleRecord → Bool) :
    List (List RuleRecord) → InsertOutcome
  | [] => { recordsInserted := 0, recordsSkipped := 0, errors := []
            collectorEntries := [], batchesIssued := [] }
  | c :: cs =>
      let b := insertBatch (ok c) c
      let rest := insertRecordsLoop ok cs
      { recordsInserted := b.inserted + rest.recordsInserted
        recordsSkipped := b.skipped + rest.recordsSkipped
        errors := b.errors ++ rest.errors
        collectorEntries := rest.collectorEntries
        batchesIssued := c :: rest.batchesIssued }

/-- `DatabaseMigration.insertRecords`: in dry-run mode return
`recordsInserted = records.length` immediately, issuing no statement;
otherwise process the batches in source order. -/
def insertRecords (ok : List RuleRecord → Bool) (records : List RuleRecord)
    (o : MigrationOptions) : InsertOutcome :=
  if o.dryRun then
    { recordsInserted := records.length, recordsSkipped := 0, errors := []
      collectorEntries := [], batchesIssued := [] }
  else insertRecordsLoop ok (chunkList (effectiveBatchSize o) records)

/-- The SQL statements `migrateToTable` can execute against the target
store, abstracted to their effect. -/
inductive DbQuery where
  | createTable (t : String)
  | truncateQ (t : String)
  | insertQ (t : String) (batch : List RuleRecord)
deriving DecidableEq, Repr

/-- The statements executed by one `migrateToTable` call, in order:
`createRuleTable` always runs (`CREATE TABLE IF NOT EXISTS ...`), the
truncate only when `truncateTable && !dryRun`, and one `INSERT` per
batch unless `dryRun` short-circuits `insertRecords`. -/
def migrateQueries (tableName : String) (records : List RuleRecord)
    (o : MigrationOptions) : List DbQuery :=
  [DbQuery.createTable tableName]
  ++ (if o.truncateTable ∧ o.dryRun = false then [DbQuery.truncateQ tableName]
      else [])
  ++ (if o.dryRun then []
      else (chunkList (effectiveBatchSize o) records).map
        (DbQuery.insertQ tableName))

/-- `DatabaseMigration.migrateToTable` (without timing): the insert
outcome together with the statements executed. -/
def migrateToTable (ok : List RuleRecord → Bool) (tableName : String)
    (records : List RuleRecord) (o : MigrationOptions) :
    InsertOutcome × List DbQuery :=
  (insertRecords ok records o, migrateQueries tableName records o)

/-- The target store: the tables that exist, each with its stored rows. -/
abbrev Store : Type := List (String × List RuleRecord)

/-- Effect of one statement on the store. `CREATE TABLE IF NOT EXISTS`
adds an empty table only when the name is absent; a failed `INSERT`
(per the oracle `ok`) leaves the store unchanged. -/
def applyQuery (ok : List RuleRecord → Bool) (s : Store) :
    DbQuery → Store
  | .createTable t =>
      if (List.lookup t s).isSome then s else s ++ [(t, [])]
  | .truncateQ t => s.map fun p => if p.1 = t then (t, []) else p
  | .insertQ t batch =>
      if ok batch then s.map fun p => if p.1 = t then (t, p.2 ++ batch) else p
      else s

/-- Effect of a statement sequence on the store. -/
def applyQueries (ok : List RuleRecord → Bool) (s : Store)
    (qs : List DbQuery) : Store :=
  qs.foldl (applyQuery ok) s

/-- Total number of rows stored across all tables. -/
def storedRowCount (s : Store) : Nat :=
  (s.map fun p => p.2.length).sum

/-! ## Google Sheets download (`src/google/sheets.ts`) -/

/-- A character the spreadsheet-id pattern `[a-zA-Z0-9-_]` accepts. -/
def isIdChar (c : Char) : Bool :=
  c.isAlpha || c.isDigit || c = '-' || c = '_'

/-- Whether `pat` is a prefix of `l` (character lists). -/
def charsHaveStart : List Char → List Char → Bool
  | [], _ => true
  | _ :: _, [] => false
  | c :: cs, d :: ds => c = d && charsHaveStart cs ds

/-- Text after the first occurrence of `marker`, if any — the search the
regex `/\/spreadsheets\/d\/([a-zA-Z0-9-_]+)/` performs. -/
def dropThroughMarker (marker : List Char) : List Char → Option (List Char)
  | [] => none
  | c :: cs =>
      if charsHaveStart marker (c :: cs) then some ((c :: cs).drop marker.length)
      else dropThroughMarker marker cs

/-- The spreadsheet id captured by the URL regex: the maximal nonempty
run of id characters after `/spreadsheets/d/`. -/
def extractSpreadsheetId (shareUrl : String) : Option String :=
  match dropThroughMarker "/spreadsheets/d/".data shareUrl.data with
  | none => none
  | some rest =>
      let id := rest.takeWhile isIdChar
      if id = [] then none else some (String.mk id)

/-- `GoogleSheetsService.convertToExportUrl`. -/
def convertToExportUrl (shareUrl : String) : Except String String :=
  match extractSpreadsheetId shareUrl with
  | none => .error "Invalid Google Sheets URL format"
  | some id =>
      .ok ("https://docs.google.com/spreadsheets/d/" ++ id
        ++ "/export?format=xlsx")

/-- Possible outcomes of one HTTP GET, as `downloadXLSX` distinguishes
them: a 200 response body, a non-200 status, a request/response error,
or the 30-second timeout. -/
inductive HttpOutcome where
  | ok (body : String)
  | statusErr (code : Nat)
  | reqError (msg : String)
  | timedOut
deriving DecidableEq, Repr

/-- `GoogleSheetsService.downloadXLSX`: convert the share URL and issue
a single plain `https.get` on the export URL. The first component is
the list of URLs actually requested; the function makes no
authenticated attempt and, on any failure, reports the error without
requesting anything further. -/
def downloadXLSX (http : String → HttpOutcome) (shareUrl : String) :
    List String × Except String String :=
  match convertToExportUrl shareUrl with
  | .error e => ([], .error e)
  | .ok exportUrl =>
      ([exportUrl],
       match http exportUrl with
       | .ok body => .ok body
       | .statusErr c => .error ("Failed to download: " ++ toString c)
       | .reqError m => .error m
       | .timedOut => .error "Download timeout after 30 seconds")

/-! ## Helper lemmas: batching -/

theorem chunkListFuel_congr {α : Type} (B : Nat) :
    ∀ (n m : Nat) (l : List α), l.length ≤ n → l.length ≤ m →
      chunkListFuel B n l = chunkListFuel B m l := by
  intro n
  induction n with
  | zero =>
      intro m l hn _
      have : l = [] := List.length_eq_zero.mp (Nat.le_zero.mp hn)
      subst this
      cases m <;> rfl
  | succ n ih =>
      intro m l hn hm
      match l with
      | [] => cases m <;> rfl
      | x :: xs =>
          match m with
          | 0 => simp at hm
          | m + 1 =>
              show (if B = 0 then [] else _) = (if B = 0 then [] else _)
              by_cases hB : B = 0
              · simp [hB]
              · simp only [if_neg hB]
                have hd : ((x :: xs).drop B).length ≤ n := by
                  simp only [List.length_drop, List.length_cons]
                  simp only [List.length_cons] at hn
                  omega
                have hd' : ((x :: xs).drop B).length ≤ m := by
                  simp only [List.length_drop, List.length_cons]
                  simp only [List.length_cons] at hm
                  omega
                rw [ih m _ hd hd']

theorem chunkList_nil {α : Type} (B : Nat) : chunkList B ([] : List α) = [] :=
  rfl

theorem chunkList_cons {α : Type} {B : Nat} (hB : B ≠ 0) (x : α)
    (xs : List α) :
    chunkList B (x :: xs)
      = (x :: xs).take B :: chunkList B ((x :: xs).drop B) := by
  show chunkListFuel B (x :: xs).length (x :: xs) = _
  simp only [List.length_cons]
  show (if B = 0 then [] else _) = _
  rw [if_neg hB]
  congr 1
  exact chunkListFuel_congr B xs.length _ _
    (by simp only [List.length_drop, List.length_cons]; omega) le_rfl

theorem chunkList_of_ne_nil {α : Type} {B : Nat} (hB : B ≠ 0) {l : List α}
    (hl : l ≠ []) :
    chunkList B l = l.take B :: chunkList B (l.drop B) := by
  obtain ⟨x, xs, rfl⟩ := List.exists_cons_of_ne_nil hl
  exact chunkList_cons hB x xs

theorem chunkList_ne_nil {α : Type} {B : Nat} (hB : B ≠ 0) {l : List α}
    (hl : l ≠ []) : chunkList B l ≠ [] := by
  rw [chunkList_of_ne_nil hB hl]
  exact List.cons_ne_nil _ _

theorem chunkList_flatten {α : Type} {B : Nat} (hB : 0 < B) (l : List α) :
    (chunkList B l).flatten = l := by
  suffices h : ∀ (n : Nat) (l : List α), l.length ≤ n →
      (chunkList B l).flatten = l from h l.length l le_rfl
  intro n
  induction n with
  | zero =>
      intro l hl
      have : l = [] := List.length_eq_zero.mp (Nat.le_zero.mp hl)
      subst this; rfl
  | succ n ih =>
      intro l hl
      match l with
      | [] => rfl
      | x :: xs =>
          rw [chunkList_cons (by omega) x xs, List.flatten_cons]
          rw [ih ((x :: xs).drop B)
            (by simp only [List.length_drop, List.length_cons]
                simp only [List.length_cons] at hl; omega)]
          exact List.take_append_drop B (x :: xs)

theorem chunkList_length {α : Type} {B : Nat} (hB : 0 < B) {l : List α}
    (hl : l ≠ []) :
    (chunkList B l).length = (l.length + B - 1) / B := by
  have key : ∀ (n : Nat) (l : List α), l ≠ [] → l.length ≤ n →
      (chunkList B l).length = (l.length - 1) / B + 1 := by
    intro n
    induction n with
    | zero =>
        intro l h0 hl
        exact absurd (List.length_eq_zero.mp (Nat.le_zero.mp hl)) h0
    | succ n ih =>
        intro l h0 hl
        match l with
        | x :: xs =>
            rw [chunkList_cons (by omega) x xs]
            by_cases hle : (x :: xs).length ≤ B
            · rw [List.drop_eq_nil_of_le hle]
              simp only [chunkList_nil, List.length_cons, List.length_nil]
              rw [Nat.div_eq_of_lt (by simp only [List.length_cons] at hle; omega)]
            · push_neg at hle
              have hdne : (x :: xs).drop B ≠ [] := by
                intro hcon
                have := congrArg List.length hcon
                simp only [List.length_drop, List.length_nil] at this
                omega
              rw [List.length_cons, ih _ hdne
                (by simp only [List.length_drop, List.length_cons]
                    simp only [List.length_cons] at hl; omega)]
              simp only [List.length_drop]
              have hr : (x :: xs).length - 1 = ((x :: xs).length - B - 1) + B := by
                simp only [List.length_cons] at hle ⊢; omega
              rw [hr, Nat.add_div_right _ hB]
  have h1 := key l.length l hl le_rfl
  have h2 : l.length + B - 1 = (l.length - 1) + B := by
    have := List.length_pos.mpr hl; omega
  rw [h1, h2, Nat.add_div_right _ hB]

theorem chunkList_mem_bounds {α : Type} {B : Nat} (hB : 0 < B) :
    ∀ (l : List α), ∀ c ∈ chunkList B l, c.length ≤ B ∧ c ≠ [] := by
  suffices h : ∀ (n : Nat) (l : List α), l.length ≤ n →
      ∀ c ∈ chunkList B l, c.length ≤ B ∧ c ≠ [] from
    fun l => h l.length l le_rfl
  intro n
  induction n with
  | zero =>
      intro l hl c hc
      have : l = [] := List.length_eq_zero.mp (Nat.le_zero.mp hl)
      subst this; simp [chunkList_nil] at hc
  | succ n ih =>
      intro l hl c hc
      match l with
      | [] => simp [chunkList_nil] at hc
      | x :: xs =>
          rw [chunkList_cons (by omega) x xs] at hc
          rcases List.mem_cons.mp hc with h | h
          · subst h
            constructor
            · rw [List.length_take]; exact Nat.min_le_left _ _
            · intro hcon
              have := congrArg List.length hcon
              simp only [List.length_take, List.length_cons,
                List.length_nil] at this
              omega
          · exact ih ((x :: xs).drop B)
              (by simp only [List.length_drop, List.length_cons]
                  simp only [List.length_cons] at hl; omega) c h

theorem chunkList_dropLast_full {α : Type} {B : Nat} (hB : 0 < B) :
    ∀ (l : List α), ∀ c ∈ (chunkList B l).dropLast, c.length = B := by
  suffices h : ∀ (n : Nat) (l : List α), l.length ≤ n →
      ∀ c ∈ (chunkList B l).dropLast, c.length = B from
    fun l => h l.length l le_rfl
  intro n
  induction n with
  | zero =>
      intro l hl c hc
      have : l = [] := List.length_eq_zero.mp (Nat.le_zero.mp hl)
      subst this; simp [chunkList_nil] at hc
  | succ n ih =>
      intro l hl c hc
      match l with
      | [] => simp [chunkList_nil] at hc
      | x :: xs =>
          rw [chunkList_cons (by omega) x xs] at hc
          by_cases hle : (x :: xs).length ≤ B
          · rw [List.drop_eq_nil_of_le hle, chunkList_nil] at hc
            simp at hc
          · push_neg at hle
            have hdne : (x :: xs).drop B ≠ [] := by
              intro hcon
              have := congrArg List.length hcon
              simp only [List.length_drop, List.length_nil] at this
              omega
            have hcne : chunkList B ((x :: xs).drop B) ≠ [] :=
              chunkList_ne_nil (by omega) hdne
            obtain ⟨y, ys, hys⟩ := List.exists_cons_of_ne_nil hcne
            rw [hys] at hc
            rw [List.dropLast_cons₂] at hc
            rcases List.mem_cons.mp hc with h | h
            · subst h
              rw [List.length_take]
              have := hle
              simp only [List.length_cons] at this ⊢
              omega
            · rw [← hys] at h
              exact ih ((x :: xs).drop B)
                (by simp only [List.length_drop, List.length_cons]
                    simp only [List.length_cons] at hl; omega) c h

theorem chunkList_getLast_len {α : Type} {B : Nat} (hB : 0 < B) :
    ∀ (l : List α), l ≠ [] →
      (chunkList B l).getLast?.map List.length
        = some (if l.length % B = 0 then B else l.length % B) := by
  suffices h : ∀ (n : Nat) (l : List α), l ≠ [] → l.length ≤ n →
      (chunkList B l).getLast?.map List.length
        = some (if l.length % B = 0 then B else l.length % B) from
    fun l hl => h l.length l hl le_rfl
  intro n
  induction n with
  | zero =>
      intro l h0 hl
      exact absurd (List.length_eq_zero.mp (Nat.le_zero.mp hl)) h0
  | succ n ih =>
      intro l h0 hl
      match l with
      | x :: xs =>
          rw [chunkList_cons (by omega) x xs]
          by_cases hle : (x :: xs).length ≤ B
          · rw [List.drop_eq_nil_of_le hle, chunkList_nil]
            simp only [List.getLast?_singleton, Option.map_some',
              List.take_of_length_le hle]
            congr 1
            rcases Nat.lt_or_ge (x :: xs).length B with hlt | hge
            · rw [Nat.mod_eq_of_lt hlt, if_neg (by simp)]
            · have hEq : (x :: xs).length = B := le_antisymm hle hge
              rw [hEq, Nat.mod_self, if_pos rfl]
          · push_neg at hle
            have hdne : (x :: xs).drop B ≠ [] := by
              intro hcon
              have := congrArg List.length hcon
              simp only [List.length_drop, List.length_nil] at this
              omega
            have hcne : chunkList B ((x :: xs).drop B) ≠ [] :=
              chunkList_ne_nil (by omega) hdne
            obtain ⟨y, ys, hys⟩ := List.exists_cons_of_ne_nil hcne
            rw [hys, List.getLast?_cons_cons, ← hys]
            rw [ih _ hdne
              (by simp only [List.length_drop, List.length_cons]
                  simp only [List.length_cons] at hl; omega)]
            congr 2
            · simp only [List.length_drop]
              have hBle : B ≤ (x :: xs).length := le_of_lt hle
              conv_rhs => rw [← Nat.sub_add_cancel hBle]
              rw [Nat.add_mod_right]
            · simp only [List.length_drop]
              have hBle : B ≤ (x :: xs).length := le_of_lt hle
              conv_rhs => rw [← Nat.sub_add_cancel hBle]
              rw [Nat.add_mod_right]

/-- The splice-based accumulator of `streamRecordsFromCache` produces
exactly the `slice`-based chunks, for any positive batch size. -/
theorem streamLoop_eq_chunkList {B : Nat} (hB : 0 < B) :
    ∀ (l acc : List RuleRecord), acc.length < B →
      streamLoop B acc l = chunkList B (acc ++ l) := by
  intro l
  induction l with
  | nil =>
      intro acc hacc
      match acc with
      | [] => rfl
      | a :: as =>
          rw [List.append_nil]
          have h1 : streamLoop B (a :: as) [] = [a :: as] := rfl
          rw [h1, chunkList_cons (by omega) a as,
            List.take_of_length_le (le_of_lt hacc),
            List.drop_eq_nil_of_le (le_of_lt hacc), chunkList_nil]
  | cons r rs ih =>
      intro acc hacc
      show (if B ≤ (acc ++ [r]).length then _ else _) = _
      have hlen : (acc ++ [r]).length = acc.length + 1 := by simp
      by_cases hge : B ≤ (acc ++ [r]).length
      · simp only [if_pos hge]
        have hEq : (acc ++ [r]).length = B := by omega
        rw [List.take_of_length_le (le_of_eq hEq),
          List.drop_eq_nil_of_le (le_of_eq hEq)]
        rw [ih [] (by simpa using hB)]
        rw [List.nil_append]
        have hsplit : acc ++ r :: rs = (acc ++ [r]) ++ rs := by simp
        rw [hsplit]
        have hne : (acc ++ [r]) ++ rs ≠ [] := by simp
        rw [chunkList_of_ne_nil (by omega) hne]
        rw [← hEq, List.take_left, List.drop_left]
      · simp only [if_neg hge]
        rw [ih (acc ++ [r]) (by omega)]
        congr 1
        simp

/-! ## Helper lemmas: generic loops -/

theorem length_filterMap_of_all_some {α β : Type} (f : α → Option β) :
    ∀ l : List α, (∀ a ∈ l, (f a).isSome) →
      (l.filterMap f).length = l.length := by
  intro l h
  induction l with
  | nil => rfl
  | cons a t ih =>
      rw [List.filterMap_cons]
      rcases hfa : f a with _ | b
      · have hmem := h a (List.mem_cons_self a t)
        rw [hfa] at hmem
        simp at hmem
      · rw [List.length_cons, ih fun x hx => h x (List.mem_cons_of_mem a hx)]
        rw [List.length_cons]

theorem insertRecordsLoop_spec (ok : List RuleRecord → Bool) :
    ∀ chunks : List (List RuleRecord),
      (insertRecordsLoop ok chunks).batchesIssued = chunks
      ∧ (insertRecordsLoop ok chunks).collectorEntries = []
      ∧ (insertRecordsLoop ok chunks).errors.length
          = (chunks.filter fun c => !ok c).length
      ∧ (insertRecordsLoop ok chunks).recordsInserted
          = ((chunks.filter fun c => ok c).map List.length).sum
      ∧ (insertRecordsLoop ok chunks).recordsSkipped
          = ((chunks.filter fun c => !ok c).map List.length).sum := by
  intro chunks
  induction chunks with
  | nil => exact ⟨rfl, rfl, rfl, rfl, rfl⟩
  | cons c cs ih =>
      obtain ⟨ih1, ih2, ih3, ih4, ih5⟩ := ih
      rcases hok : ok c with _ | _ <;>
        simp [insertRecordsLoop, insertBatch, hok, List.filter_cons,
          ih1, ih2, ih3, ih4, ih5]

theorem validateLoop_spec :
    ∀ (records : List RuleRecord) (i : Nat),
      (validateLoop i records).validRecords
          = records.filter (fun r => decide (validateRecord r = []))
      ∧ (validateLoop i records).collectorEntries
          = (records.filter fun r => !decide (validateRecord r = [])).length
      ∧ (validateLoop i records).invalidRecords
          = (records.filter fun r => !decide (validateRecord r = [])).length := by
  intro records
  induction records with
  | nil => intro i; exact ⟨rfl, rfl, rfl⟩
  | cons r rs ih =>
      intro i
      obtain ⟨ih1, ih2, ih3⟩ := ih (i + 1)
      by_cases hr : validateRecord r = [] <;>
        simp [validateLoop, hr, List.filter_cons, ih1, ih2, ih3]

/-! ## Helper lemmas: deduplication -/

theorem dedupGo_sublist :
    ∀ (l : List RuleRecord) (seen : List String),
      List.Sublist (dedupGo seen l) l := by
  intro l
  induction l with
  | nil => intro seen; exact List.Sublist.refl []
  | cons r rs ih =>
      intro seen
      rw [dedupGo]
      by_cases h : dedupKey r ∈ seen
      · simp only [if_pos h]
        exact List.Sublist.cons r (ih seen)
      · simp only [if_neg h]
        exact List.Sublist.cons₂ r (ih (dedupKey r :: seen))

theorem dedupGo_keys_nodup :
    ∀ (l : List RuleRecord) (seen : List String),
      ((dedupGo seen l).map dedupKey).Nodup
      ∧ ∀ k ∈ (dedupGo seen l).map dedupKey, k ∉ seen := by
  intro l
  induction l with
  | nil => intro seen; exact ⟨List.nodup_nil, by simp [dedupGo]⟩
  | cons r rs ih =>
      intro seen
      rw [dedupGo]
      by_cases h : dedupKey r ∈ seen
      · simpa only [if_pos h] using ih seen
      · simp only [if_neg h]
        obtain ⟨ihn, ihs⟩ := ih (dedupKey r :: seen)
        refine ⟨?_, ?_⟩
        · rw [List.map_cons, List.nodup_cons]
          exact ⟨fun hmem => (ihs _ hmem) (List.mem_cons_self _ _), ihn⟩
        · intro k hk
          rw [List.map_cons, List.mem_cons] at hk
          rcases hk with hk | hk
          · subst hk; exact h
          · intro hcon
            exact (ihs k hk) (List.mem_cons_of_mem _ hcon)

theorem dedupGo_keys_complete :
    ∀ (l : List RuleRecord) (seen : List String) (r : RuleRecord),
      r ∈ l → dedupKey r ∉ seen →
      dedupKey r ∈ (dedupGo seen l).map dedupKey := by
  intro l
  induction l with
  | nil => intro seen r hr; simp at hr
  | cons a rs ih =>
      intro seen r hr hs
      rw [dedupGo]
      by_cases h : dedupKey a ∈ seen
      · simp only [if_pos h]
        rcases List.mem_cons.mp hr with hr | hr
        · subst hr; exact absurd h hs
        · exact ih seen r hr hs
      · simp only [if_neg h, List.map_cons]
        rcases List.mem_cons.mp hr with hr | hr
        · subst hr; exact List.mem_cons_self _ _
        · by_cases hkey : dedupKey r = dedupKey a
          · rw [hkey]; exact List.mem_cons_self _ _
          · refine List.mem_cons_of_mem _ (ih _ r hr ?_)
            intro hcon
            rcases List.mem_cons.mp hcon with hcon | hcon
            · exact hkey hcon
            · exact hs hcon

/-! ## Helper lemmas: direct transformation -/

theorem bypassRow_isSome_of_code (r : RuleRecord) (i : Nat)
    (h : jsTrim r.code ≠ "") : (bypassRow r i).isSome := by
  have hcode : r.code ≠ "" := by
    intro he
    apply h
    rw [he]
    rfl
  simp [bypassRow, bypassRowCode, hcode, h]

theorem bypass_records_length (data : List RuleRecord)
    (h : ∀ r ∈ data, jsTrim r.code ≠ "") :
    (bypassTransformation data).records.length = min 1000 data.length := by
  show ((data.take 1000).enum.filterMap fun p => bypassRow p.2 p.1).length = _
  rw [length_filterMap_of_all_some]
  · rw [List.enum_length, List.length_take]
  · rintro ⟨i, r⟩ hp
    have hr : r ∈ data.take 1000 := by
      rw [List.enum_eq_zip_range] at hp
      exact (List.of_mem_zip hp).2
    exact bypassRow_isSome_of_code r i (h r (List.take_subset _ _ hr))

theorem countP_replicate {α : Type} (p : α → Bool) :
    ∀ (n : Nat) (a : α),
      (List.replicate n a).countP p = if p a then n else 0 := by
  intro n a
  induction n with
  | zero => simp
  | succ n ih =>
      rw [List.replicate_succ, List.countP_cons, ih]
      cases hpa : p a <;> simp [hpa]

/-- `effectiveBatchSize` is always positive: JavaScript's `||` maps both
an absent `batchSize` and an explicit `0` to the configured default. -/
theorem effectiveBatchSize_pos (o : MigrationOptions) :
    0 < effectiveBatchSize o := by
  unfold effectiveBatchSize
  match o.batchSize with
  | none => decide
  | some n =>
      by_cases hn : n = 0
      · simp [hn, appConfigBatchSize]
      · simp [hn]; omega

/-! ## Helper lemmas: defensive property access -/

/-- Whether the property `k` is absent, `null` or `undefined` on the
record — exactly the condition under which `getSafeValue` skips it. -/
def nullishProp (record : JSRecord) (k : String) : Bool :=
  match List.lookup k record with
  | none => true
  | some v => v == JSValue.vNull || v == JSValue.vUndef

theorem getSafeValue_cons (record : JSRecord) (k : String)
    (ks : List String) (fb : String) :
    getSafeValue record (k :: ks) fb
      = match List.lookup k record with
        | some v =>
            if v ≠ JSValue.vNull ∧ v ≠ JSValue.vUndef then jsToString v
            else getSafeValue record ks fb
        | none => getSafeValue record ks fb := rfl

theorem getSafeValue_skip {record : JSRecord} {k : String}
    (ks : List String) (fb : String) (h : nullishProp record k = true) :
    getSafeValue record (k :: ks) fb = getSafeValue record ks fb := by
  rw [getSafeValue_cons]
  unfold nullishProp at h
  rcases hlk : List.lookup k record with _ | v
  · rfl
  · rw [hlk] at h
    simp only [Bool.or_eq_true, beq_iff_eq] at h
    rcases h with h | h <;> subst h <;> simp

theorem getSafeValue_hit {record : JSRecord} {k : String}
    (ks : List String) (fb : String) {s : String}
    (h : List.lookup k record = some (JSValue.vStr s)) :
    getSafeValue record (k :: ks) fb = s := by
  rw [getSafeValue_cons, h]
  simp [jsToString]

/-! ## Concrete fixtures used by witnesses and counterexamples -/

/-- A minimal valid parsed row: `code = "a"`, everything else blank. -/
def rowCodeA : RuleRecord := { emptyRecord with code := "a" }

/-- A parsed row with `code = "b"`. -/
def rowCodeB : RuleRecord := { emptyRecord with code := "b" }

/-- 1001 non-blank parsed rows — one more than `bypassTransformation`'s
hard-coded `i < 1000` bound. -/
def c1Rows : List RuleRecord := List.replicate 1001 rowCodeA

/-- The parser-level blank-row test applied to an already-parsed record
(all 11 fields blank after trimming). -/
def isBlankParsedRow (r : RuleRecord) : Bool :=
  jsTrim r.code == "" && jsTrim r.description == "" && jsTrim r.label == ""
  && jsTrim r.requirement_level == "" && jsTrim r.roles == ""
  && jsTrim r.type == "" && jsTrim r.validations == ""
  && jsTrim r.variant == "" && jsTrim r.codigoCategoriaMirakl == ""
  && jsTrim r.nomeCategoriaMirakl == ""
  && jsTrim r.parentCodeCategoriaMirakl == ""

/-- Two parsed rows whose codes collide case-insensitively after
trimming (`"A"` vs `"a "`) but which are distinct records. -/
def rowCodeUpperA : RuleRecord :=
  { emptyRecord with code := "A", description := "first" }

def rowCodeLowerA : RuleRecord :=
  { emptyRecord with code := "a ", description := "second" }

def c2Sheets : List (List RuleRecord) := [[rowCodeUpperA, rowCodeLowerA]]

/-! ## Claim C1 -/

/-- **C1** (corrected). For input sheets all of whose rows carry a
non-blank `code` (which is what the parser guarantees), the Direct
path's `bypassTransformation` attempts exactly one Rule Record per row
— but only for the first 1000 rows: `records` has length
`min 1000 data.length`, while the error list stays empty and the
remaining rows are merely counted in `skippedRecords`. Rows beyond the
1000-row cap therefore yield neither an attempted record nor an Error
Entry. -/
theorem c1_bypass_row_accounting (data : List RuleRecord)
    (h : ∀ r ∈ data, jsTrim r.code ≠ "") :
    (bypassTransformation data).records.length = min 1000 data.length
    ∧ (bypassTransformation data).errors = []
    ∧ (bypassTransformation data).skippedRecords
        = data.length - min 1000 data.length := by
  have hlen := bypass_records_length data h
  refine ⟨hlen, rfl, ?_⟩
  show data.length - (bypassTransformation data).records.length = _
  rw [hlen]

theorem c1_bypass_row_accounting_witness :
    (∀ r ∈ [rowCodeA], jsTrim r.code ≠ "")
    ∧ ((bypassTransformation [rowCodeA]).records.length
          = min 1000 [rowCodeA].length
       ∧ (bypassTransformation [rowCodeA]).errors = []
       ∧ (bypassTransformation [rowCodeA]).skippedRecords
          = [rowCodeA].length - min 1000 [rowCodeA].length) :=
  ⟨by decide, c1_bypass_row_accounting [rowCodeA] (by decide)⟩

/-- **C1** counterexample: 1001 non-blank source rows (all with code
`"a"`) produce only 1000 attempted Rule Records and an empty error
list, so at least one non-blank row yields neither an attempted record
nor an Error Entry — it is silently dropped by the `i < 1000` bound. -/
theorem c1_counterexample :
    c1Rows.countP (fun r => !isBlankParsedRow r) = 1001
    ∧ (bypassTransformation c1Rows).records.length = 1000
    ∧ (bypassTransformation c1Rows).errors = [] := by
  refine ⟨?_, ?_, rfl⟩
  · rw [show c1Rows = List.replicate 1001 rowCodeA from rfl,
      countP_replicate, if_pos (by decide)]
  · rw [bypass_records_length]
    · have h1 : c1Rows.length = 1001 := by
        rw [show c1Rows = List.replicate 1001 rowCodeA from rfl,
          List.length_replicate]
      rw [h1]
      decide
    · intro r hr
      rw [List.eq_of_mem_replicate (show r ∈ List.replicate 1001 rowCodeA
        from hr)]
      decide

/-! ## Claim C2 -/

/-- **C2** (corrected). The transformation stage of
`src/processing/data-transformer.ts` is *not* a literal 1:1 migration:
`transformSheetsData` hands the loader `deduplicateRecords` of the
per-row output, which is the subsequence of first occurrences per
case-insensitively-trimmed `code`; its keys are pairwise distinct, and
every per-row record's key is still represented. -/
theorem c2_transform_deduplicates (sheets : List (List RuleRecord)) :
    (transformSheetsData sheets).records
        = deduplicateRecords (allBypassRecords sheets)
    ∧ List.Sublist (transformSheetsData sheets).records
        (allBypassRecords sheets)
    ∧ ((transformSheetsData sheets).records.map dedupKey).Nodup
    ∧ ∀ r ∈ allBypassRecords sheets,
        dedupKey r ∈ (transformSheetsData sheets).records.map dedupKey := by
  have hrec : (transformSheetsData sheets).records
      = dedupGo [] (allBypassRecords sheets) := rfl
  refine ⟨hrec, ?_, ?_, ?_⟩
  · rw [hrec]; exact dedupGo_sublist _ []
  · rw [hrec]; exact (dedupGo_keys_nodup _ []).1
  · intro r hr
    rw [hrec]
    exact dedupGo_keys_complete _ [] r hr (by simp)

theorem c2_transform_deduplicates_witness :
    ((transformSheetsData c2Sheets).records
        = deduplicateRecords (allBypassRecords c2Sheets))
    ∧ ((transformSheetsData c2Sheets).records.map dedupKey).Nodup
    ∧ dedupKey ((allBypassRecords c2Sheets).getD 1 emptyRecord)
        ∈ (transformSheetsData c2Sheets).records.map dedupKey :=
  ⟨(c2_transform_deduplicates c2Sheets).1,
   (c2_transform_deduplicates c2Sheets).2.2.1,
   (c2_transform_deduplicates c2Sheets).2.2.2 _ (by decide)⟩

/-- **C2** counterexample: two distinct rows whose codes are `"A"` and
`"a "` produce two per-row records, but the list handed to the loader
has length 1 — the second record is removed because its code equals the
first's case-insensitively after trimming. -/
theorem c2_counterexample :
    (allBypassRecords c2Sheets).length = 2
    ∧ (transformSheetsData c2Sheets).records.length = 1 := by
  decide

/-! ## Claim C3 -/

/-- **C3** (corrected). (a) A non-blank source row whose extracted
`code` is blank is rejected by `processRow` with the
`Missing required field 'code'` error (which `processSheet` records as
an Error Entry) — it is not given a placeholder code. (b) The
`auto_row_<n>` placeholder of `createMinimalRecord` is produced only
when the `code` property is absent, `null` or `undefined` under both
accepted keys. (c) A `code` property holding a string — even the empty
string — passes through unchanged, so a blank `code` never becomes
`auto_row_<n>`. -/
theorem c3_blank_code_handling :
    (∀ (row : List JSValue) (mapping : List (String × Nat)),
        rowIsEmpty row = false →
        extractField mapping row "code" = "" →
        processRow row mapping = .error "Missing required field 'code'")
    ∧ (∀ (record : JSRecord) (i : Nat),
        nullishProp record "code" = true → nullishProp record "Code" = true →
        (createMinimalRecord record i).code
          = jsSlice (autoRowPlaceholder i) 100)
    ∧ (∀ (record : JSRecord) (i : Nat) (s : String),
        List.lookup "code" record = some (JSValue.vStr s) →
        (createMinimalRecord record i).code = jsSlice s 100) := by
  refine ⟨?_, ?_, ?_⟩
  · intro row mapping hrow hcode
    unfold processRow
    rw [hrow]
    simp only [Bool.false_eq_true, if_false]
    rw [if_pos (Or.inl hcode)]
  · intro record i h1 h2
    show jsSlice (getSafeValue record ["code", "Code"] (autoRowPlaceholder i)) 100 = _
    rw [getSafeValue_skip _ _ h1, getSafeValue_skip _ _ h2]
    rfl
  · intro record i s h
    show jsSlice (getSafeValue record ["code", "Code"] (autoRowPlaceholder i)) 100 = _
    rw [getSafeValue_hit _ _ h]

/-- A row whose `code` cell is blank while `description` is populated. -/
def c3Row : List JSValue := [JSValue.vStr "", JSValue.vStr "hello"]

def c3Mapping : List (String × Nat) := [("code", 0), ("description", 1)]

/-- A record whose `code` property is absent. -/
def c3NoCode : JSRecord := [("description", JSValue.vStr "x")]

/-- A record whose `code` property is the empty string. -/
def c3EmptyCode : JSRecord := [("code", JSValue.vStr "")]

theorem c3_blank_code_handling_witness :
    (rowIsEmpty c3Row = false ∧ extractField c3Mapping c3Row "code" = ""
      ∧ processRow c3Row c3Mapping = .error "Missing required field 'code'")
    ∧ (nullishProp c3NoCode "code" = true ∧ nullishProp c3NoCode "Code" = true
      ∧ (createMinimalRecord c3NoCode 4).code = jsSlice (autoRowPlaceholder 4) 100)
    ∧ (List.lookup "code" c3EmptyCode = some (JSValue.vStr "")
      ∧ (createMinimalRecord c3EmptyCode 4).code = jsSlice "" 100) :=
  ⟨⟨rfl, by decide,
    c3_blank_code_handling.1 c3Row c3Mapping rfl (by decide)⟩,
   ⟨by decide, by decide,
    c3_blank_code_handling.2.1 c3NoCode 4 (by decide) (by decide)⟩,
   ⟨by decide, c3_blank_code_handling.2.2 c3EmptyCode 4 "" (by decide)⟩⟩

/-- **C3** counterexample: the non-blank row `["", "hello"]` (blank
`code` cell, populated `description`) is turned into an error by the
per-row processing rather than into a record with a placeholder code;
and the builder applied to a record whose `code` is the empty string
yields `code = ""`, not `"auto_row_5"`. -/
theorem c3_counterexample :
    processRow c3Row c3Mapping = .error "Missing required field 'code'"
    ∧ (createMinimalRecord c3EmptyCode 4).code = ""
    ∧ autoRowPlaceholder 4 = "auto_row_5" := by
  refine ⟨rfl, by decide, ?_⟩
  show "auto_row_" ++ toString (4 + 1) = "auto_row_5"
  decide

/-! ## Claim C4 -/

/-- **C4** (corrected). In a non-dry run, `insertRecords` submits every
batch exactly once, in order; a failed batch contributes its full length
to `recordsSkipped` and exactly one message to the migration *result's*
error list, with no per-row retry, and the remaining batches are still
submitted — but the shared Error Collector receives *no* entry, because
`insertBatch` catches its own failure and the loop's `catch` (the only
`errorCollector.addError` site) never runs. -/
theorem c4_batch_failure_isolation (ok : List RuleRecord → Bool)
    (records : List RuleRecord) (o : MigrationOptions)
    (h : o.dryRun = false) :
    (insertRecords ok records o).batchesIssued
        = chunkList (effectiveBatchSize o) records
    ∧ (insertRecords ok records o).collectorEntries = []
    ∧ (insertRecords ok records o).errors.length
        = ((chunkList (effectiveBatchSize o) records).filter
            fun c => !ok c).length
    ∧ (insertRecords ok records o).recordsInserted
        = (((chunkList (effectiveBatchSize o) records).filter
            fun c => ok c).map List.length).sum
    ∧ (insertRecords ok records o).recordsSkipped
        = (((chunkList (effectiveBatchSize o) records).filter
            fun c => !ok c).map List.length).sum := by
  unfold insertRecords
  rw [h]
  simp only [Bool.false_eq_true, if_false]
  exact insertRecordsLoop_spec ok _

/-- Deterministic oracle failing exactly the batch `[rowCodeB, rowCodeB]`. -/
def c4Oracle : List RuleRecord → Bool := fun c => decide (c ≠ [rowCodeB, rowCodeB])

def c4Records : List RuleRecord :=
  [rowCodeA, rowCodeA, rowCodeB, rowCodeB, rowCodeA, rowCodeA]

def c4Options : MigrationOptions :=
  { dryRun := false, batchSize := some 2, skipExisting := false
    truncateTable := false }

theorem c4_batch_failure_isolation_witness :
    c4Options.dryRun = false
    ∧ ((insertRecords c4Oracle c4Records c4Options).batchesIssued
          = chunkList (effectiveBatchSize c4Options) c4Records
       ∧ (insertRecords c4Oracle c4Records c4Options).collectorEntries = []
       ∧ (insertRecords c4Oracle c4Records c4Options).errors.length
          = ((chunkList (effectiveBatchSize c4Options) c4Records).filter
              fun c => !c4Oracle c).length
       ∧ (insertRecords c4Oracle c4Records c4Options).recordsInserted
          = (((chunkList (effectiveBatchSize c4Options) c4Records).filter
              fun c => c4Oracle c).map List.length).sum
       ∧ (insertRecords c4Oracle c4Records c4Options).recordsSkipped
          = (((chunkList (effectiveBatchSize c4Options) c4Records).filter
              fun c => !c4Oracle c).map List.length).sum) :=
  ⟨rfl, c4_batch_failure_isolation c4Oracle c4Records c4Options rfl⟩

/-- **C4** counterexample: three batches of two records, the middle one
failing. Its two records are counted skipped, one error message lands in
the result's error list and the last batch is still inserted — but the
Error Aggregator (the shared `ErrorCollector`) receives *zero* entries,
not "exactly one Error Entry for that batch". -/
theorem c4_counterexample :
    (insertRecords c4Oracle c4Records c4Options).errors
        = ["batch insert failed"]
    ∧ (insertRecords c4Oracle c4Records c4Options).recordsSkipped = 2
    ∧ (insertRecords c4Oracle c4Records c4Options).recordsInserted = 4
    ∧ (insertRecords c4Oracle c4Records c4Options).batchesIssued.length = 3
    ∧ (insertRecords c4Oracle c4Records c4Options).collectorEntries = [] := by
  decide

/-! ## Claim C5 -/

/-- The share URL used to exercise the download path. -/
def c5ShareUrl : String := "https://docs.google.com/spreadsheets/d/abc123/edit"

/-- **C5** (code bug). `downloadXLSX` has no authenticated path at all:
on a share URL whose export request times out, it issues exactly one
request — the direct unauthenticated export GET — and reports the fetch
failed without attempting anything else. The claimed
authenticated-then-fallback behaviour (also described in the repo's own
technical documentation) is absent from `src/google/sheets.ts`. -/
theorem c5_download_no_fallback :
    downloadXLSX (fun _ => HttpOutcome.timedOut) c5ShareUrl
      = (["https://docs.google.com/spreadsheets/d/abc123/export?format=xlsx"],
         .error "Download timeout after 30 seconds") := by
  have hconv : convertToExportUrl c5ShareUrl
      = .ok "https://docs.google.com/spreadsheets/d/abc123/export?format=xlsx" :=
    rfl
  unfold downloadXLSX
  rw [hconv]

/-! ## Claim C6 -/

/-- **C6** (confirmed). The streaming variant's `transformSheetsData`
compares the precomputed total row count against the 100 000 threshold
once, before any row processing: at exactly 100 000 rows the Direct
(in-memory) branch materializes every record and caches nothing, while
from 100 001 rows on the Streaming branch caches the sheets and returns
no materialized record. -/
theorem c6_threshold_strategy_choice (sheets : List (List RuleRecord)) :
    (totalRowsOf sheets = 100000 →
      (streamingVariantTransformSheetsData sheets).cachedSheetData = []
      ∧ (streamingVariantTransformSheetsData sheets).res.records
          = directRecordsOf sheets)
    ∧ (100001 ≤ totalRowsOf sheets →
      (streamingVariantTransformSheetsData sheets).cachedSheetData = sheets
      ∧ (streamingVariantTransformSheetsData sheets).res.records = []) := by
  constructor
  · intro h
    unfold streamingVariantTransformSheetsData
    rw [if_neg (by rw [h]; unfold LARGE_THRESHOLD; omega)]
    exact ⟨rfl, rfl⟩
  · intro h
    unfold streamingVariantTransformSheetsData
    rw [if_pos (by unfold LARGE_THRESHOLD; omega)]
    exact ⟨rfl, rfl⟩

/-- One sheet of exactly 100 000 rows. -/
def c6DirectSheets : List (List RuleRecord) := [List.replicate 100000 rowCodeA]

/-- One sheet of exactly 100 001 rows. -/
def c6StreamSheets : List (List RuleRecord) := [List.replicate 100001 rowCodeA]

theorem c6_threshold_strategy_choice_witness :
    (totalRowsOf c6DirectSheets = 100000
      ∧ (streamingVariantTransformSheetsData c6DirectSheets).cachedSheetData = []
      ∧ (streamingVariantTransformSheetsData c6DirectSheets).res.records
          = directRecordsOf c6DirectSheets)
    ∧ (totalRowsOf c6StreamSheets = 100001
      ∧ (streamingVariantTransformSheetsData c6StreamSheets).cachedSheetData
          = c6StreamSheets
      ∧ (streamingVariantTransformSheetsData c6StreamSheets).res.records = []) := by
  have h0 : totalRowsOf c6DirectSheets = 100000 := by
    show (List.map List.length [List.replicate 100000 rowCodeA]).sum = 100000
    rw [List.map_cons, List.map_nil, List.length_replicate]
    rfl
  have h1 : totalRowsOf c6StreamSheets = 100001 := by
    show (List.map List.length [List.replicate 100001 rowCodeA]).sum = 100001
    rw [List.map_cons, List.map_nil, List.length_replicate]
    rfl
  have hd := (c6_threshold_strategy_choice c6DirectSheets).1 h0
  have hs := (c6_threshold_strategy_choice c6StreamSheets).2 (by omega)
  exact ⟨⟨h0, hd.1, hd.2⟩, ⟨h1, hs.1, hs.2⟩⟩

/-! ## Claim C7 -/

/-- **C7** (confirmed). For a non-empty record list and a non-dry run,
`insertRecords` issues exactly `⌈N / B⌉` batch insert statements
(`B = effectiveBatchSize`), in source-row order (their concatenation is
the record list); every batch but the last has exactly `B` records and
the last has `N mod B`, or `B` when `N mod B = 0`. -/
theorem c7_batch_shape (ok : List RuleRecord → Bool)
    (records : List RuleRecord) (o : MigrationOptions)
    (h : o.dryRun = false) (hne : records ≠ []) :
    (insertRecords ok records o).batchesIssued
        = chunkList (effectiveBatchSize o) records
    ∧ (chunkList (effectiveBatchSize o) records).length
        = (records.length + effectiveBatchSize o - 1) / effectiveBatchSize o
    ∧ (chunkList (effectiveBatchSize o) records).flatten = records
    ∧ (∀ c ∈ (chunkList (effectiveBatchSize o) records).dropLast,
        c.length = effectiveBatchSize o)
    ∧ (chunkList (effectiveBatchSize o) records).getLast?.map List.length
        = some (if records.length % effectiveBatchSize o = 0 then
            effectiveBatchSize o
          else records.length % effectiveBatchSize o) := by
  have hB := effectiveBatchSize_pos o
  refine ⟨?_, chunkList_length hB hne, chunkList_flatten hB records,
    chunkList_dropLast_full hB records, chunkList_getLast_len hB records hne⟩
  unfold insertRecords
  rw [h]
  simp only [Bool.false_eq_true, if_false]
  exact (insertRecordsLoop_spec ok _).1

/-- Five records with batch size 2: 3 batches of sizes 2, 2, 1. -/
def c7Records : List RuleRecord :=
  [rowCodeA, rowCodeA, rowCodeA, rowCodeA, rowCodeA]

theorem c7_batch_shape_witness :
    (c4Options.dryRun = false ∧ c7Records ≠ [])
    ∧ ((insertRecords c4Oracle c7Records c4Options).batchesIssued
          = chunkList (effectiveBatchSize c4Options) c7Records
       ∧ (chunkList (effectiveBatchSize c4Options) c7Records).length
          = (c7Records.length + effectiveBatchSize c4Options - 1)
              / effectiveBatchSize c4Options
       ∧ (chunkList (effectiveBatchSize c4Options) c7Records).flatten
          = c7Records
       ∧ (∀ c ∈ (chunkList (effectiveBatchSize c4Options) c7Records).dropLast,
            c.length = effectiveBatchSize c4Options)
       ∧ (chunkList (effectiveBatchSize c4Options) c7Records).getLast?.map
            List.length
          = some (if c7Records.length % effectiveBatchSize c4Options = 0 then
              effectiveBatchSize c4Options
            else c7Records.length % effectiveBatchSize c4Options)) :=
  ⟨⟨rfl, by decide⟩,
   c7_batch_shape c4Oracle c7Records c4Options rfl (by decide)⟩

/-! ## Claim C8 -/

/-- **C8** (corrected). With `dryRun = true`, `migrateToTable` reports
`recordsInserted = records.length` and executes no insert and no
truncate, so the stored row count of every table is unchanged — but it
still executes the `CREATE TABLE IF NOT EXISTS` statement, which
creates an empty table when the target is absent, so the store itself
is not always left unchanged. -/
theorem c8_dry_run (ok : List RuleRecord → Bool) (t : String)
    (records : List RuleRecord) (o : MigrationOptions)
    (h : o.dryRun = true) :
    (migrateToTable ok t records o).1.recordsInserted = records.length
    ∧ (migrateToTable ok t records o).2 = [DbQuery.createTable t]
    ∧ ∀ s : Store,
        storedRowCount (applyQueries ok s (migrateToTable ok t records o).2)
          = storedRowCount s := by
  have hq : (migrateToTable ok t records o).2 = [DbQuery.createTable t] := by
    show migrateQueries t records o = _
    unfold migrateQueries
    rw [h]
    simp
  refine ⟨?_, hq, ?_⟩
  · show (insertRecords ok records o).recordsInserted = _
    unfold insertRecords
    rw [h]
    rfl
  · intro s
    rw [hq]
    show storedRowCount (applyQuery ok s (DbQuery.createTable t)) = _
    have happly : applyQuery ok s (DbQuery.createTable t)
        = if (List.lookup t s).isSome then s else s ++ [(t, [])] := rfl
    rw [happly]
    by_cases hl : (List.lookup t s).isSome
    · rw [if_pos hl]
    · rw [if_neg hl]
      unfold storedRowCount
      rw [List.map_append, List.sum_append]
      rfl

def c8Options : MigrationOptions :=
  { dryRun := true, batchSize := none, skipExisting := false
    truncateTable := false }

theorem c8_dry_run_witness :
    c8Options.dryRun = true
    ∧ ((migrateToTable c4Oracle "rules_test" [rowCodeA, rowCodeA]
          c8Options).1.recordsInserted = [rowCodeA, rowCodeA].length
       ∧ (migrateToTable c4Oracle "rules_test" [rowCodeA, rowCodeA]
          c8Options).2 = [DbQuery.createTable "rules_test"]
       ∧ ∀ s : Store,
          storedRowCount (applyQueries c4Oracle s
            (migrateToTable c4Oracle "rules_test" [rowCodeA, rowCodeA]
              c8Options).2)
            = storedRowCount s) :=
  ⟨rfl, c8_dry_run c4Oracle "rules_test" [rowCodeA, rowCodeA] c8Options rfl⟩

/-- **C8** counterexample: a dry run against an empty store (the target
table does not exist yet) reports both records inserted, yet the store
after the run contains a new (empty) table — the dry run's
`CREATE TABLE IF NOT EXISTS` is a persisted side effect, so the target
store is not left unchanged. -/
theorem c8_counterexample :
    (migrateToTable c4Oracle "rules_test" [rowCodeA, rowCodeA]
        c8Options).1.recordsInserted = 2
    ∧ applyQueries c4Oracle []
        (migrateToTable c4Oracle "rules_test" [rowCodeA, rowCodeA]
          c8Options).2
      = [("rules_test", [])]
    ∧ ([("rules_test", [])] : Store) ≠ ([] : Store) := by
  decide

/-! ## Claim C9 -/

/-- **C9** (confirmed). `validateTransformedRecords` keeps exactly the
records with no validation error, adds one collector Error Entry per
rejected record, and a record is rejected if and only if its code is
blank (after trimming), its code exceeds 255 characters, its
description exceeds 2000 characters, or its `requirement_level` is
non-empty and not one of the uppercase literals `REQUIRED`, `OPTIONAL`,
`RECOMMENDED` — so any other non-empty value (e.g. lowercase
`required`, or `conditional`) is rejected. -/
theorem c9_validation_iff (records : List RuleRecord) :
    (validateTransformedRecords records).validRecords
        = records.filter (fun r => decide (validateRecord r = []))
    ∧ (validateTransformedRecords records).collectorEntries
        = (records.filter fun r => !decide (validateRecord r = [])).length
    ∧ (validateTransformedRecords records).invalidRecords
        = (records.filter fun r => !decide (validateRecord r = [])).length
    ∧ ∀ r : RuleRecord,
        validateRecord r ≠ [] ↔
          (jsTrim r.code = "" ∨ 255 < r.code.length
           ∨ 2000 < r.description.length
           ∨ (r.requirement_level ≠ ""
              ∧ r.requirement_level ∉ REQUIREMENT_LEVELS)) := by
  obtain ⟨h1, h2, h3⟩ := validateLoop_spec records 0
  refine ⟨h1, h2, h3, ?_⟩
  intro r
  have hA : (r.code = "" ∨ jsTrim r.code = "") ↔ jsTrim r.code = "" := by
    constructor
    · rintro (h | h)
      · rw [h]; rfl
      · exact h
    · exact Or.inr
  have hB : (r.code ≠ "" ∧ 255 < r.code.length) ↔ 255 < r.code.length := by
    constructor
    · exact And.right
    · intro h
      refine ⟨?_, h⟩
      intro he
      rw [he, show ("" : String).length = 0 from rfl] at h
      omega
  have hC : (r.description ≠ "" ∧ 2000 < r.description.length)
      ↔ 2000 < r.description.length := by
    constructor
    · exact And.right
    · intro h
      refine ⟨?_, h⟩
      intro he
      rw [he, show ("" : String).length = 0 from rfl] at h
      omega
  have hite : ∀ (c : Prop) [Decidable c] (a : String),
      ((if c then [a] else []) = [] ↔ ¬c) := by
    intro c inst a
    by_cases g : c <;> simp [g]
  have key : validateRecord r = [] ↔
      ¬(r.code = "" ∨ jsTrim r.code = "")
      ∧ ¬(r.code ≠ "" ∧ 255 < r.code.length)
      ∧ ¬(r.description ≠ "" ∧ 2000 < r.description.length)
      ∧ ¬(r.requirement_level ≠ ""
          ∧ r.requirement_level ∉ REQUIREMENT_LEVELS) := by
    unfold validateRecord
    rw [List.append_eq_nil, List.append_eq_nil, List.append_eq_nil,
      hite, hite, hite, hite]
    exact ⟨fun h => ⟨h.1.1.1, h.1.1.2, h.1.2, h.2⟩,
      fun h => ⟨⟨⟨h.1, h.2.1⟩, h.2.2.1⟩, h.2.2.2⟩⟩
  rw [Ne, key, hA, hB, hC]
  constructor
  · intro h
    by_contra hcon
    exact h ⟨fun ha => hcon (Or.inl ha),
      fun hb => hcon (Or.inr (Or.inl hb)),
      fun hc => hcon (Or.inr (Or.inr (Or.inl hc))),
      fun hd => hcon (Or.inr (Or.inr (Or.inr hd)))⟩
  · rintro (ha | hb | hc | hd) ⟨n1, n2, n3, n4⟩
    · exact n1 ha
    · exact n2 hb
    · exact n3 hc
    · exact n4 hd

/-- A record rejected only for its lowercase `requirement_level`. -/
def recBadLevel : RuleRecord :=
  { emptyRecord with code := "x", requirement_level := "required" }

theorem c9_validation_iff_witness :
    ((validateTransformedRecords [recBadLevel]).validRecords
        = [recBadLevel].filter (fun r => decide (validateRecord r = [])))
    ∧ (validateRecord recBadLevel ≠ [] ↔
        (jsTrim recBadLevel.code = "" ∨ 255 < recBadLevel.code.length
         ∨ 2000 < recBadLevel.description.length
         ∨ (recBadLevel.requirement_level ≠ ""
            ∧ recBadLevel.requirement_level ∉ REQUIREMENT_LEVELS))) :=
  ⟨(c9_validation_iff [recBadLevel]).1,
   (c9_validation_iff [recBadLevel]).2.2.2 recBadLevel⟩

/-! ## Claim C10 -/

/-- **C10** (confirmed). For a positive batch size, the yields of
`streamRecordsFromCache` are exactly the per-sheet chunkings of the
built records, concatenated in sheet order: every yielded batch is
nonempty and of size at most `batchSize`; the concatenation of all
yields is the full record sequence in source order; and within each
sheet every batch except the last is exactly full — a shorter batch can
thus occur at each sheet boundary, not only at the end of the stream.
(The generator is modelled as the finite list of its yields, so after
the last element it yields nothing further by construction.) -/
theorem c10_stream_batches (cached : List (List RuleRecord)) (B : Nat)
    (hB : 0 < B) :
    streamRecordsFromCache cached B
        = (cached.map fun d => chunkList B (sheetMinimalRecords d)).flatten
    ∧ (∀ b ∈ streamRecordsFromCache cached B, b.length ≤ B ∧ b ≠ [])
    ∧ (streamRecordsFromCache cached B).flatten
        = (cached.map sheetMinimalRecords).flatten
    ∧ ∀ d ∈ cached, ∀ c ∈ (chunkList B (sheetMinimalRecords d)).dropLast,
        c.length = B := by
  have heq : streamRecordsFromCache cached B
      = (cached.map fun d => chunkList B (sheetMinimalRecords d)).flatten := by
    unfold streamRecordsFromCache
    congr 1
    apply List.map_congr_left
    intro d _
    rw [streamLoop_eq_chunkList hB _ [] (by simpa using hB), List.nil_append]
  refine ⟨heq, ?_, ?_, ?_⟩
  · intro b hb
    rw [heq, List.mem_flatten] at hb
    obtain ⟨l, hl, hbl⟩ := hb
    rw [List.mem_map] at hl
    obtain ⟨d, _, rfl⟩ := hl
    exact chunkList_mem_bounds hB _ b hbl
  · have h3 : ∀ L : List (List RuleRecord),
        ((L.map fun d => chunkList B (sheetMinimalRecords d)).flatten).flatten
          = (L.map sheetMinimalRecords).flatten := by
      intro L
      induction L with
      | nil => rfl
      | cons d rest ih =>
          simp only [List.map_cons, List.flatten_cons, List.flatten_append]
          rw [chunkList_flatten hB, ih]
    rw [heq]
    exact h3 cached
  · intro d _
    exact chunkList_dropLast_full hB (sheetMinimalRecords d)

def c10Cached : List (List RuleRecord) := [[rowCodeA, rowCodeA, rowCodeA]]

theorem c10_stream_batches_witness :
    (0 : Nat) < 2
    ∧ (streamRecordsFromCache c10Cached 2
          = (c10Cached.map fun d => chunkList 2 (sheetMinimalRecords d)).flatten
       ∧ (∀ b ∈ streamRecordsFromCache c10Cached 2, b.length ≤ 2 ∧ b ≠ [])
       ∧ (streamRecordsFromCache c10Cached 2).flatten
          = (c10Cached.map sheetMinimalRecords).flatten
       ∧ ∀ d ∈ c10Cached,
          ∀ c ∈ (chunkList 2 (sheetMinimalRecords d)).dropLast,
            c.length = 2) :=
  ⟨by decide, c10_stream_batches c10Cached 2 (by decide)⟩

end Mirakl
